import Mathlib

/-!
Verification of the deterministic validation engine of the data-alchemist
repository (src/src/lib/validators/deterministic.ts, with the earlier
engine version kept under src/unnamed/part_000).

The embedding models row cells as strings (the CSV loader produces string
cells), and models the JavaScript `Number` coercion on its integer
fragment: optionally signed decimal-digit strings (and the empty or
blank string, which `Number` sends to 0).  All definitions are
structurally recursive so that concrete runs reduce by `decide`/`rfl`.
-/

/-! ## JavaScript string primitives, modelled over `List Char` -/

/-- The characters `String.trim` / JS `trim` remove at the ends. -/
def jsIsWs (c : Char) : Bool :=
  c = ' ' ∨ c = '\t' ∨ c = '\n' ∨ c = '\r'

/-- Drop leading whitespace characters. -/
def dropWsLeft (cs : List Char) : List Char :=
  cs.dropWhile jsIsWs

/-- Trim a character list at both ends. -/
def trimChars (cs : List Char) : List Char :=
  ((dropWsLeft cs).reverse.dropWhile jsIsWs).reverse

/-- JS `String.prototype.trim` (on the whitespace characters that occur
in this data). -/
def jsTrim (s : String) : String :=
  ⟨trimChars s.data⟩

/-- Split a character list on a separator character; like JS
`split(sep)`, adjacent separators yield empty pieces and the empty
input yields one empty piece. -/
def splitCharAux (sep : Char) : List Char → List Char → List (List Char)
  | [], acc => [acc.reverse]
  | c :: rest, acc =>
    if c = sep then acc.reverse :: splitCharAux sep rest []
    else splitCharAux sep rest (c :: acc)

/-- JS `String.prototype.split` with a one-character separator. -/
def jsSplit (s : String) (sep : Char) : List String :=
  (splitCharAux sep s.data []).map fun cs => ⟨cs⟩

/-- JS `String.prototype.includes` with a one-character needle. -/
def jsIncludes (s : String) (c : Char) : Bool :=
  s.data.contains c

/-- JS `startsWith` with a one-character prefix. -/
def jsStartsWith (s : String) (c : Char) : Bool :=
  match s.data with
  | [] => false
  | d :: _ => d = c

/-- JS `endsWith` with a one-character suffix. -/
def jsEndsWith (s : String) (c : Char) : Bool :=
  match s.data.reverse with
  | [] => false
  | d :: _ => d = c

/-- JS `substring(1, length - 1)`: drop the first and last character
(empty when the string has at most one character, as in JS where the
clamped bounds cross). -/
def jsInnerSubstring (s : String) : String :=
  ⟨(s.data.drop 1).dropLast⟩

/-- JS `Array.prototype.join(", ")` on a list of strings. -/
def joinCommaSpace : List String → String
  | [] => ""
  | [s] => s
  | s :: rest => s ++ ", " ++ joinCommaSpace rest

/-! ## The JS `Number` coercion, on its integer fragment -/

/-- Parse a list of decimal digits, most significant first.  Fails on a
non-digit; the empty list yields the accumulator. -/
def digitsToNatAux : List Char → Nat → Option Nat
  | [], acc => some acc
  | c :: rest, acc =>
    if c.isDigit then digitsToNatAux rest (acc * 10 + (c.toNat - 48))
    else none

/-- Parse a non-empty all-digit character list. -/
def digitsToNat (cs : List Char) : Option Nat :=
  match cs with
  | [] => none
  | _ => digitsToNatAux cs 0

/--
The JS `Number(s)` coercion on strings, restricted to its integer
fragment: surrounding whitespace is trimmed, the empty/blank string is
0, an optional sign is followed by decimal digits.  `none` stands for
`NaN`.  (Fractional, exponent and hexadecimal notations are outside the
model; the engine's data — identifiers, phases, slots, counts — is
integer-valued.)
-/
def jsNumber (s : String) : Option Int :=
  match trimChars s.data with
  | [] => some 0
  | '-' :: rest => (digitsToNat rest).map fun n => -(n : Int)
  | '+' :: rest => (digitsToNat rest).map fun n => (n : Int)
  | cs => (digitsToNat cs).map fun n => (n : Int)

/-- Models `Number(row[h])`, where an absent cell is `undefined` (`NaN`). -/
def jsNumberOS : Option String → Option Int
  | none => none
  | some s => jsNumber s

/-- JS `String(n)` for an integer number. -/
def intRepr (n : Int) : String :=
  toString n

/-! ## Generic list helpers mirroring JS `Set` / `sort` idioms -/

/-- Models `[...new Set(l)]`: deduplicate keeping first occurrences, in order. -/
def dedupFirstAux [DecidableEq α] : List α → List α → List α
  | [], _ => []
  | a :: as, seen =>
    if a ∈ seen then dedupFirstAux as seen
    else a :: dedupFirstAux as (a :: seen)

/-- Deduplication `[...new Set(l)]` as a list operation. -/
def dedupFirst [DecidableEq α] (l : List α) : List α :=
  dedupFirstAux l []

/-- Insert into a ≤-sorted list (used to model JS `sort`). -/
def insertLe (le : α → α → Bool) (a : α) : List α → List α
  | [] => [a]
  | b :: bs => if le a b then a :: b :: bs else b :: insertLe le a bs

/-- Insertion sort; on duplicate-free inputs it agrees with any JS
`sort` under the same total order. -/
def sortLe (le : α → α → Bool) : List α → List α
  | [] => []
  | a :: as => insertLe le a (sortLe le as)

/-- Lexicographic ≤ on character lists by code point, the order JS
string comparison uses. -/
def lexLeChars : List Char → List Char → Bool
  | [], _ => true
  | _ :: _, [] => false
  | a :: as, b :: bs =>
    if a = b then lexLeChars as bs else a.toNat ≤ b.toNat

/-- JS default string `sort()` order. -/
def strLe (a b : String) : Bool :=
  lexLeChars a.data b.data

/-- JS numeric `sort((a, b) => a - b)` order. -/
def intLe (a b : Int) : Bool :=
  a ≤ b

/-- The truthiness of a looked-up cell: `undefined` and the empty
string are falsy, every other string is truthy. -/
def truthyOS : Option String → Bool
  | none => false
  | some s => s ≠ ""

/-! ## Data model of the validators -/

/-- A row: a mapping from column name to (string) cell value. -/
abbrev Row := List (String × String)

/-- Lookup `row[header]`; `none` models JS `undefined` for an absent column. -/
def rowGet (r : Row) (h : String) : Option String :=
  (r.find? fun p => p.1 = h).map (·.2)

/-- A single validation finding, as in the source's `ValidationResult`. -/
structure ValidationResult where
  rowIndex : Int
  header : String
  message : String
deriving DecidableEq, Repr

/-- Options of the list normalizer. -/
structure ListOptions where
  allowRanges : Bool
  numeric : Bool
deriving DecidableEq, Repr

/-- The result record of `validateAndNormalizeList`. -/
structure NormalizeResult where
  error : Option String := none
  normalized : Option String := none
deriving DecidableEq, Repr

/-- Index the rows of a dataset, mirroring the `(row, rowIndex)`
pairing of JS `forEach`. -/
def enumFrom (n : Nat) : List α → List (Nat × α)
  | [] => []
  | a :: as => (n, a) :: enumFrom (n + 1) as

/-- Models `data.forEach((row, i) => ...push(...))`: collect the results
each row contributes, in row order. -/
def forEachCollect (f : Nat → α → List ValidationResult) (data : List α) :
    List ValidationResult :=
  (enumFrom 0 data).foldl (fun acc p => acc ++ f p.1 p.2) []

/-! ## The list/range normalizer (`validateAndNormalizeList`) -/

/-- The loop `for (let i = start; i <= end; i++) push(i)`, unrolled on
its iteration count. -/
def rangeListAux (start : Int) : Nat → List Int
  | 0 => []
  | n + 1 => start :: rangeListAux (start + 1) n

/-- Models `for (let i = start; i <= end; i++) push(i)`. -/
def rangeList (start stop : Int) : List Int :=
  rangeListAux start (stop - start + 1).toNat

/--
The numeric item loop of `validateAndNormalizeList`: each item is a
number or (with `allowRanges`) a hyphenated range expanded to
`rangeList`; the first malformed item aborts with its error message.
-/
def normalizeNumericGo (allowRanges : Bool) :
    List String → List Int → Except String (List Int)
  | [], acc => Except.ok acc
  | item :: rest, acc =>
    if item = "" then normalizeNumericGo allowRanges rest acc
    else if allowRanges ∧ jsIncludes item '-' then
      match (jsSplit item '-').map jsTrim with
      | [p1, p2] =>
        match jsNumber p1, jsNumber p2 with
        | some start, some stop =>
          if start > stop then
            Except.error ("Invalid range, start > end: \"" ++ item ++ "\"")
          else normalizeNumericGo allowRanges rest (acc ++ rangeList start stop)
        | _, _ =>
          Except.error ("Non-numeric value in range: \"" ++ item ++ "\"")
      | _ => Except.error ("Invalid range format: \"" ++ item ++ "\"")
    else
      match jsNumber item with
      | none => Except.error ("Non-numeric value: \"" ++ item ++ "\"")
      | some n => normalizeNumericGo allowRanges rest (acc ++ [n])

/--
Embeds `validateAndNormalizeList` (deterministic.ts:50-87): trim, strip
one outer pair of square brackets, split on commas into trimmed
non-empty items; numeric lists are parsed (ranges expanded when
allowed), deduplicated, sorted ascending and joined with ", "; string
lists silently drop hyphenated items, deduplicate and sort
lexicographically.  A falsy or absent value passes through unchanged.
-/
def validateAndNormalizeList (value : Option String) (options : ListOptions) :
    NormalizeResult :=
  match value with
  | none => { normalized := none }
  | some v =>
    if v = "" then { normalized := some v }
    else
      let processed := jsTrim v
      let processed :=
        if jsStartsWith processed '[' ∧ jsEndsWith processed ']' then
          jsInnerSubstring processed
        else processed
      let items := ((jsSplit processed ',').map jsTrim).filter fun i => i ≠ ""
      if options.numeric then
        match normalizeNumericGo options.allowRanges items [] with
        | Except.error e => { error := some e }
        | Except.ok parts =>
          { normalized :=
              some (joinCommaSpace ((sortLe intLe (dedupFirst parts)).map intRepr)) }
      else
        let normalizedParts := dedupFirst (items.filter fun i => ¬ jsIncludes i '-')
        { normalized := some (joinCommaSpace (sortLe strLe normalizedParts)) }

/-! ## Derived per-row lists, as the callers rebuild them -/

/-- The item list the cross-entity checks rebuild from a normalizer
result: `normalized ? normalized.split(',').map(s => s.trim()) : []`. -/
def listItemsOf (res : NormalizeResult) : List String :=
  match res.normalized with
  | some s => if s ≠ "" then (jsSplit s ',').map jsTrim else []
  | none => []

/-- The slot or phase numbers rebuilt from a normalizer result, as
`normalized ? normalized.split(',').map(Number) : []`; `none` entries
model `NaN`. -/
def numsOf (res : NormalizeResult) : List (Option Int) :=
  match res.normalized with
  | some s => if s ≠ "" then (jsSplit s ',').map jsNumber else []
  | none => []

/-! ## Single-entity validators -/

/-- Embeds `validateRequiredColumns` (deterministic.ts:15-22): one
table-wide error per schema-required column absent from the headers. -/
def validateRequiredColumns (headers : List String)
    (requiredHeaders : List String) : List ValidationResult :=
  (requiredHeaders.filter fun h => ¬ headers.contains h).map fun h =>
    { rowIndex := -1, header := h, message := "Missing required column: " ++ h }

/-- The first pass of `validateDuplicateIds`: fold the rows, keeping
the `seenIds` and `duplicateIds` sets (JS `Set`s modelled as
insertion-ordered duplicate-free lists). -/
def dupIdsPass (data : List Row) (idHeader : String) :
    List String × List String :=
  data.foldl
    (fun st row =>
      match rowGet row idHeader with
      | none => st
      | some id =>
        if id = "" then st
        else if id ∈ st.1 then (st.1, if id ∈ st.2 then st.2 else st.2 ++ [id])
        else (st.1 ++ [id], st.2))
    ([], [])

/-- Embeds `validateDuplicateIds` (deterministic.ts:25-47): collect the
identifier values seen more than once, then emit one error per row
whose identifier is in that set, in row order. -/
def validateDuplicateIds (data : List Row) (idHeader : String) :
    List ValidationResult :=
  let duplicateIds := (dupIdsPass data idHeader).2
  forEachCollect
    (fun rowIndex row =>
      match rowGet row idHeader with
      | none => []
      | some id =>
        if id ∈ duplicateIds then
          [{ rowIndex := rowIndex, header := idHeader,
             message := "Duplicate ID found: " ++ id }]
        else [])
    data

/-- A numeric bound of `validateOutOfRange`; the source passes the
JS `Infinity` literal as an upper bound. -/
inductive JsBound where
  | fin (n : Int)
  | posInf
deriving DecidableEq, Repr

/-- Comparison `value < bound`. -/
def ltBound (v : Int) : JsBound → Bool
  | JsBound.fin n => v < n
  | JsBound.posInf => true

/-- Comparison `value > bound`. -/
def gtBound (v : Int) : JsBound → Bool
  | JsBound.fin n => v > n
  | JsBound.posInf => false

/-- Rendering `String(bound)`; JS prints `Infinity` for the infinite bound. -/
def boundRepr : JsBound → String
  | JsBound.fin n => intRepr n
  | JsBound.posInf => "Infinity"

/-- Embeds `validateOutOfRange` (deterministic.ts:91-104): a present,
numeric-coercible value outside `[min, max]` yields an error; absent or
non-numeric values are skipped. -/
def validateOutOfRange (data : List Row) (header : String)
    (min max : JsBound) : List ValidationResult :=
  forEachCollect
    (fun rowIndex row =>
      if truthyOS (rowGet row header) then
        match jsNumberOS (rowGet row header) with
        | none => []
        | some v =>
          if ltBound v min ∨ gtBound v max then
            [{ rowIndex := rowIndex, header := header,
               message := "Value " ++ intRepr v ++ " is out of range (" ++
                 boundRepr min ++ "-" ++ boundRepr max ++ ")" }]
          else []
      else [])
    data

/-- Embeds `validateBrokenJson` from the current validators file
(deterministic.ts:107-119).  Its `forEach` body runs `JSON.parse`
inside a `try` whose `catch` block is empty (a stray closing brace
follows it), so nothing is ever pushed onto `errors`: the function
returns the empty list on every input. -/
def validateBrokenJson (data : List Row) (header : String) :
    List ValidationResult :=
  forEachCollect (fun _ _ => []) data

/-! ## Cross-entity validators -/

/-- Embeds `validateUnknownReferences` (deterministic.ts:122-154):
build the set of task identifiers, then for each client row with a
truthy `Requested TaskIDs` cell normalize it (string mode); a
normalization error is reported once and ends that row, otherwise each
requested identifier missing from the task-identifier set yields an
error. -/
def validateUnknownReferences (clientsData tasksData : List Row) :
    List ValidationResult :=
  let taskIds := tasksData.map fun task => rowGet task "TaskID"
  forEachCollect
    (fun clientIndex client =>
      let requestedTasksStr := rowGet client "Requested TaskIDs"
      if truthyOS requestedTasksStr then
        let res := validateAndNormalizeList requestedTasksStr
          { numeric := false, allowRanges := false }
        match res.error with
        | some e =>
          [{ rowIndex := clientIndex, header := "Requested TaskIDs",
             message := "Malformed Requested TaskIDs: " ++ e }]
        | none =>
          (listItemsOf res).filterMap fun reqTaskId =>
            if taskIds.contains (some reqTaskId) then none
            else some
              { rowIndex := clientIndex, header := "Requested TaskIDs",
                message := "Unknown TaskID: " ++ reqTaskId ++
                  " in Requested TaskIDs" }
      else [])
    clientsData

/-- Embeds `validateOverloadedWorkers` (deterministic.ts:157-184): per
worker row with a truthy slots list and numeric `MaxLoadPerPhase`,
normalize the slots (numeric, no ranges); a malformed list reports its
own error, otherwise fewer slots than the max load yields an error
naming both numbers. -/
def validateOverloadedWorkers (workersData : List Row) :
    List ValidationResult :=
  forEachCollect
    (fun workerIndex worker =>
      let availableSlotsStr := rowGet worker "AvailableSlots"
      match jsNumberOS (rowGet worker "MaxLoadPerPhase") with
      | none => []
      | some maxLoadPerPhase =>
        if truthyOS availableSlotsStr then
          let res := validateAndNormalizeList availableSlotsStr
            { numeric := true, allowRanges := false }
          match res.error with
          | some e =>
            [{ rowIndex := workerIndex, header := "AvailableSlots",
               message := "Malformed AvailableSlots: " ++ e }]
          | none =>
            let availableSlots := numsOf res
            if (availableSlots.length : Int) < maxLoadPerPhase then
              [{ rowIndex := workerIndex, header := "MaxLoadPerPhase",
                 message := "Worker has " ++ intRepr availableSlots.length ++
                   " available slots but MaxLoadPerPhase is " ++
                   intRepr maxLoadPerPhase }]
            else []
        else [])
    workersData

/-- The union of all skills offered by any worker, as
`validateSkillCoverageMatrix` builds it (a JS `Set` modelled as a list
queried only for membership). -/
def workerSkillsUnion (workersData : List Row) : List String :=
  workersData.foldl
    (fun acc worker =>
      let skillsStr := rowGet worker "Skills"
      if truthyOS skillsStr then
        let res := validateAndNormalizeList skillsStr
          { numeric := false, allowRanges := false }
        match res.normalized with
        | some s => if s ≠ "" then acc ++ (jsSplit s ',').map jsTrim else acc
        | none => acc
      else acc)
    []

/-- Embeds `validateSkillCoverageMatrix` (deterministic.ts:187-229):
union the workers' normalized skills, then per task row with a truthy
`RequiredSkills` cell normalize it; a normalization error reports its
own error, otherwise each required skill missing from the union yields
an error. -/
def validateSkillCoverageMatrix (tasksData workersData : List Row) :
    List ValidationResult :=
  let workerSkills := workerSkillsUnion workersData
  forEachCollect
    (fun taskIndex task =>
      let requiredSkillsStr := rowGet task "RequiredSkills"
      if truthyOS requiredSkillsStr then
        let res := validateAndNormalizeList requiredSkillsStr
          { numeric := false, allowRanges := false }
        match res.error with
        | some e =>
          [{ rowIndex := taskIndex, header := "RequiredSkills",
             message := "Malformed RequiredSkills: " ++ e }]
        | none =>
          (listItemsOf res).filterMap fun reqSkill =>
            if workerSkills.contains reqSkill then none
            else some
              { rowIndex := taskIndex, header := "RequiredSkills",
                message := "Required skill '" ++ reqSkill ++
                  "' not found in any worker" }
      else [])
    tasksData

/-- The normalized required-skill items of a task row, as
`validateMaxConcurrencyFeasibility` rebuilds them. -/
def taskRequiredSkills (task : Row) : List String :=
  listItemsOf (validateAndNormalizeList (rowGet task "RequiredSkills")
    { numeric := false, allowRanges := false })

/-- The normalized skill items of a worker row, as
`validateMaxConcurrencyFeasibility` rebuilds them. -/
def workerSkillsOf (worker : Row) : List String :=
  listItemsOf (validateAndNormalizeList (rowGet worker "Skills")
    { numeric := false, allowRanges := false })

/-- The qualified-worker counting loop of
`validateMaxConcurrencyFeasibility`: a worker with a truthy `Skills`
cell counts when its normalized skill list contains every required
skill. -/
def qualifiedWorkerCount (workersData : List Row)
    (requiredSkills : List String) : Nat :=
  workersData.foldl
    (fun count worker =>
      if truthyOS (rowGet worker "Skills") then
        if requiredSkills.all fun reqSkill =>
            (workerSkillsOf worker).contains reqSkill then
          count + 1
        else count
      else count)
    0

/-- Embeds `validateMaxConcurrencyFeasibility`
(deterministic.ts:232-275): tasks with non-numeric or non-positive
`MaxConcurrent` are skipped; otherwise the qualified workers are
counted (zero when `RequiredSkills` is falsy) and an error naming both
numbers is emitted when `MaxConcurrent` exceeds the count. -/
def validateMaxConcurrencyFeasibility (tasksData workersData : List Row) :
    List ValidationResult :=
  forEachCollect
    (fun taskIndex task =>
      match jsNumberOS (rowGet task "MaxConcurrent") with
      | none => []
      | some maxConcurrent =>
        if maxConcurrent ≤ 0 then []
        else
          let count : Nat :=
            if truthyOS (rowGet task "RequiredSkills") then
              qualifiedWorkerCount workersData (taskRequiredSkills task)
            else 0
          if maxConcurrent > (count : Int) then
            [{ rowIndex := taskIndex, header := "MaxConcurrent",
               message := "MaxConcurrent (" ++ intRepr maxConcurrent ++
                 ") is higher than available qualified workers (" ++
                 intRepr count ++ ")" }]
          else [])
    tasksData

/-! ## Phase-slot saturation -/

/-- The options the phase checks use for `AvailableSlots`. -/
def slotsOptions : ListOptions := { numeric := true, allowRanges := false }

/-- The options the phase checks use for `PreferredPhases`. -/
def phasesOptions : ListOptions := { numeric := true, allowRanges := true }

/-- A worker's normalized `AvailableSlots` numbers, as
`validatePhaseSlotSaturation` rebuilds them (empty when the cell is
falsy). -/
def workerSlotNums (worker : Row) : List (Option Int) :=
  if truthyOS (rowGet worker "AvailableSlots") then
    numsOf (validateAndNormalizeList (rowGet worker "AvailableSlots") slotsOptions)
  else []

/-- A task's normalized `PreferredPhases` numbers, ranges expanded
(empty when the cell is falsy). -/
def taskPhaseNums (task : Row) : List (Option Int) :=
  if truthyOS (rowGet task "PreferredPhases") then
    numsOf (validateAndNormalizeList (rowGet task "PreferredPhases") phasesOptions)
  else []

/-- One step of the running-maximum loop (`if (slot > maxPhase)
maxPhase = slot`); a `NaN` entry never updates the maximum. -/
def maxStep (acc : Int) : Option Int → Int
  | none => acc
  | some v => if v > acc then v else acc

/-- The `maxPhase` computation of `validatePhaseSlotSaturation`
(deterministic.ts:287-307): the largest number in any worker's slots
list or any task's phases list, starting from 0. -/
def maxPhaseOf (tasksData workersData : List Row) : Int :=
  let m := workersData.foldl
    (fun acc worker => (workerSlotNums worker).foldl maxStep acc) 0
  tasksData.foldl (fun acc task => (taskPhaseNums task).foldl maxStep acc) m

/-- The capacity of phase `p` (deterministic.ts:310-323): the sum of
`MaxLoadPerPhase` over workers with a truthy slots list, a numeric max
load, and `p` among their slots. -/
def phaseCapacity (workersData : List Row) (p : Int) : Int :=
  workersData.foldl
    (fun acc worker =>
      match jsNumberOS (rowGet worker "MaxLoadPerPhase") with
      | none => acc
      | some maxLoadPerPhase =>
        if truthyOS (rowGet worker "AvailableSlots") then
          if (workerSlotNums worker).contains (some p) then
            acc + maxLoadPerPhase
          else acc
        else acc)
    0

/-- The demand of phase `p` (deterministic.ts:326-344): each task with
a positive numeric `Duration`, a truthy `PreferredPhases` cell and `p`
among its normalized phases contributes exactly one unit. -/
def phaseDemand (tasksData : List Row) (p : Int) : Int :=
  tasksData.foldl
    (fun acc task =>
      match jsNumberOS (rowGet task "Duration") with
      | none => acc
      | some duration =>
        if duration > 0 ∧ truthyOS (rowGet task "PreferredPhases") then
          if (taskPhaseNums task).contains (some p) then acc + 1 else acc
        else acc)
    0

/-- The phases `1 .. maxPhase` the comparison loops iterate over. -/
def phaseRange (maxPhase : Int) : List Int :=
  (List.range maxPhase.toNat).map fun k => (k : Int) + 1

/-- Embeds `validatePhaseSlotSaturation` (deterministic.ts:278-358):
for every phase `1 .. maxPhase`, compare demand against capacity and
emit one table-wide error per saturated phase naming both figures. -/
def validatePhaseSlotSaturation (tasksData workersData : List Row) :
    List ValidationResult :=
  (phaseRange (maxPhaseOf tasksData workersData)).filterMap fun p =>
    if phaseDemand tasksData p > phaseCapacity workersData p then
      some
        { rowIndex := -1, header := "Phase " ++ intRepr p,
          message := "Phase " ++ intRepr p ++ " is saturated: Demand (" ++
            intRepr (phaseDemand tasksData p) ++ ") exceeds Capacity (" ++
            intRepr (phaseCapacity workersData p) ++ ")" }
    else none

/-! ## The orchestrator -/

/-- A loaded dataset: parsed rows plus the header list. -/
structure EntityData where
  data : List Row
  headers : List String
deriving DecidableEq, Repr

/-- The three datasets the orchestrator receives. -/
structure AllData where
  clients : EntityData
  workers : EntityData
  tasks : EntityData
deriving DecidableEq, Repr

/-- The orchestrator's output, keyed by entity type. -/
structure AllErrors where
  clients : List ValidationResult
  workers : List ValidationResult
  tasks : List ValidationResult
deriving DecidableEq, Repr

/-- Embeds `runDeterministicValidations` (deterministic.ts:368-414):
the single-entity checks per entity type, then the cross-entity checks
gated on the relevant datasets being non-empty. -/
def runDeterministicValidations (allData : AllData) : AllErrors :=
  let clients := allData.clients
  let workers := allData.workers
  let tasks := allData.tasks
  { clients :=
      validateRequiredColumns clients.headers
        ["ClientID", "PriorityLevel", "Requested TaskIDs", "AttributesJSON"] ++
      validateDuplicateIds clients.data "ClientID" ++
      validateOutOfRange clients.data "PriorityLevel"
        (JsBound.fin 1) (JsBound.fin 5) ++
      validateBrokenJson clients.data "AttributesJSON" ++
      (if clients.data.length > 0 ∧ tasks.data.length > 0 then
        validateUnknownReferences clients.data tasks.data
      else []),
    workers :=
      validateRequiredColumns workers.headers
        ["WorkerID", "Skills", "AvailableSlots", "MaxLoadPerPhase"] ++
      validateDuplicateIds workers.data "WorkerID" ++
      validateOverloadedWorkers workers.data,
    tasks :=
      validateRequiredColumns tasks.headers
        ["TaskID", "Duration", "RequiredSkills", "PreferredPhases",
         "MaxConcurrent"] ++
      validateDuplicateIds tasks.data "TaskID" ++
      validateOutOfRange tasks.data "Duration" (JsBound.fin 1) JsBound.posInf ++
      validateOutOfRange tasks.data "MaxConcurrent"
        (JsBound.fin 1) JsBound.posInf ++
      (if tasks.data.length > 0 ∧ workers.data.length > 0 then
        validateSkillCoverageMatrix tasks.data workers.data ++
        validateMaxConcurrencyFeasibility tasks.data workers.data
      else []) ++
      (if tasks.data.length > 0 ∧ workers.data.length > 0 then
        validatePhaseSlotSaturation tasks.data workers.data
      else []) }

/-! ## The earlier engine version (src/unnamed/part_000) -/

/-- A dynamically typed row value, as in the earlier validators file
(`string | number | boolean | object`). -/
inductive JsValue where
  | vStr (s : String)
  | vNum (n : Int)
  | vBool (b : Bool)
  | vObj
deriving DecidableEq, Repr

/-- A row of the earlier engine version, with dynamic cell values. -/
abbrev JRow := List (String × JsValue)

/-- Lookup `row[header]` on a dynamic row. -/
def jrowGet (r : JRow) (h : String) : Option JsValue :=
  (r.find? fun p => p.1 = h).map (·.2)

/-- JS truthiness of a looked-up dynamic value. -/
def jsTruthy : Option JsValue → Bool
  | none => false
  | some (JsValue.vStr s) => s ≠ ""
  | some (JsValue.vNum n) => n ≠ 0
  | some (JsValue.vBool b) => b
  | some JsValue.vObj => true

/-- Embeds `validateBrokenJson` from the earlier validators file
(src/unnamed/part_000:105-118), parameterized by the success predicate
of `JSON.parse`: each row whose cell is a truthy string that fails to
parse yields an "Invalid JSON format" error; successful parses,
non-strings and falsy values yield nothing. -/
def validateBrokenJsonV0 (jsonParses : String → Bool) (data : List JRow)
    (header : String) : List ValidationResult :=
  forEachCollect
    (fun rowIndex row =>
      match jrowGet row header with
      | some (JsValue.vStr s) =>
        if s ≠ "" then
          if jsonParses s then []
          else [{ rowIndex := rowIndex, header := header,
                  message := "Invalid JSON format" }]
        else []
      | _ => [])
    data

/-! ## Definitions following the claims' words (for comparison) -/

/-- Following the claim's words (C1): the demand of phase `p` as "the
count of tasks whose normalized preferred-phases list (ranges expanded)
includes p, with each such task contributing exactly 1 unit of demand
regardless of its Duration value". -/
def phaseDemandClaim (tasksData : List Row) (p : Int) : Nat :=
  tasksData.countP fun task => (taskPhaseNums task).contains (some p)

/-- Following the claim's words (C6): the number of "workers whose
normalized skill set is a superset of the task's normalized
required-skills set". -/
def qualifiedCountClaim (workersData : List Row) (task : Row) : Nat :=
  workersData.countP fun worker =>
    (taskRequiredSkills task).all fun reqSkill =>
      (workerSkillsOf worker).contains reqSkill

/-- The per-task predicate under which `phaseDemand` actually counts a
task for phase `p`: positive numeric `Duration`, a truthy
`PreferredPhases` cell, and `p` among the normalized phases. -/
def demandCounts (p : Int) (task : Row) : Bool :=
  match jsNumberOS (rowGet task "Duration") with
  | none => false
  | some duration =>
    duration > 0 ∧ truthyOS (rowGet task "PreferredPhases") ∧
      (taskPhaseNums task).contains (some p)

/-- The per-worker predicate under which `phaseCapacity` adds a
worker's `MaxLoadPerPhase` for phase `p`. -/
def capacityCounts (p : Int) (worker : Row) : Bool :=
  (jsNumberOS (rowGet worker "MaxLoadPerPhase")).isSome ∧
    truthyOS (rowGet worker "AvailableSlots") ∧
    (workerSlotNums worker).contains (some p)

/-- The per-worker predicate under which `qualifiedWorkerCount`
actually counts a worker: a truthy `Skills` cell whose normalized items
contain every required skill. -/
def qualifiedCounts (requiredSkills : List String) (worker : Row) : Bool :=
  truthyOS (rowGet worker "Skills") ∧
    requiredSkills.all fun reqSkill =>
      (workerSkillsOf worker).contains reqSkill

/-! ## Concrete datasets used to exercise the theorems on closed inputs -/

/-- Two tasks preferring phase 1, the second with `Duration = "0"`. -/
def tasksDurZero : List Row :=
  [[("TaskID", "T1"), ("Duration", "2"), ("PreferredPhases", "1")],
   [("TaskID", "T2"), ("Duration", "0"), ("PreferredPhases", "1")]]

/-- One worker available in phase 1 with `MaxLoadPerPhase = 1`. -/
def workersOneSlot : List Row :=
  [[("WorkerID", "W1"), ("AvailableSlots", "1"), ("MaxLoadPerPhase", "1")]]

/-- A task without a `RequiredSkills` cell and positive `MaxConcurrent`. -/
def tasksNoSkills : List Row :=
  [[("TaskID", "T1"), ("MaxConcurrent", "1")]]

/-- One worker offering skill `a`. -/
def workersSkillA : List Row :=
  [[("WorkerID", "W1"), ("Skills", "a")]]

/-- The clients header row of the orchestrator schema. -/
def clientHeaders : List String :=
  ["ClientID", "PriorityLevel", "Requested TaskIDs", "AttributesJSON"]

/-- The workers header row of the orchestrator schema. -/
def workerHeaders : List String :=
  ["WorkerID", "Skills", "AvailableSlots", "MaxLoadPerPhase"]

/-- The tasks header row of the orchestrator schema. -/
def taskHeaders : List String :=
  ["TaskID", "Duration", "RequiredSkills", "PreferredPhases", "MaxConcurrent"]

/-- Empty clients and workers, one task whose `PreferredPhases` cell
`"5-2"` fails to normalize. -/
def allDataMalformedPhases : AllData :=
  { clients := ⟨[], clientHeaders⟩,
    workers := ⟨[], workerHeaders⟩,
    tasks := ⟨[[("TaskID", "T1"), ("Duration", "1"), ("RequiredSkills", "a"),
      ("PreferredPhases", "5-2"), ("MaxConcurrent", "1")]], taskHeaders⟩ }

/-- An empty workers dataset next to a task that would need skill
`welding` with `MaxConcurrent = "5"`. -/
def allDataNoWorkers : AllData :=
  { clients := ⟨[], clientHeaders⟩,
    workers := ⟨[], workerHeaders⟩,
    tasks := ⟨[[("TaskID", "T1"), ("Duration", "1"),
      ("RequiredSkills", "welding"), ("PreferredPhases", "1"),
      ("MaxConcurrent", "5")]], taskHeaders⟩ }

/-- Three datasets whose tasks header row lacks `PreferredPhases`. -/
def allDataNoPhaseHeader : AllData :=
  { clients := ⟨[], clientHeaders⟩,
    workers := ⟨[], workerHeaders⟩,
    tasks := ⟨[], ["TaskID", "Duration", "RequiredSkills", "MaxConcurrent"]⟩ }

/-- A clients dataset with a duplicated identifier. -/
def allDataDupClients : AllData :=
  { clients := ⟨[[("ClientID", "C1")], [("ClientID", "C2")],
      [("ClientID", "C1")]], clientHeaders⟩,
    workers := ⟨[], workerHeaders⟩,
    tasks := ⟨[], taskHeaders⟩ }

/-- The missing-column result for `PreferredPhases`. -/
def missingPhasesResult : ValidationResult :=
  { rowIndex := -1, header := "PreferredPhases",
    message := "Missing required column: PreferredPhases" }

/-- The duplicate-identifier result for the first `C1` row. -/
def dupC1Result : ValidationResult :=
  { rowIndex := 0, header := "ClientID",
    message := "Duplicate ID found: C1" }

/-! ## Generic lemmas about the iteration helpers -/

theorem foldl_append_flatMap (g : β → List γ) :
    ∀ (l : List β) (acc : List γ),
      l.foldl (fun a x => a ++ g x) acc = acc ++ l.flatMap g := by
  intro l
  induction l with
  | nil => intro acc; simp
  | cons x xs ih =>
    intro acc
    simp [List.foldl_cons, ih (acc ++ g x), List.flatMap_cons, List.append_assoc]

theorem forEachCollect_eq_flatMap (f : Nat → α → List ValidationResult)
    (data : List α) :
    forEachCollect f data = (enumFrom 0 data).flatMap fun p => f p.1 p.2 := by
  unfold forEachCollect
  rw [foldl_append_flatMap]
  simp

theorem flatMap_toList_eq_filterMap (g : β → Option γ) :
    ∀ l : List β, (l.flatMap fun x => (g x).toList) = l.filterMap g := by
  intro l
  induction l with
  | nil => simp
  | cons x xs ih =>
    cases h : g x <;> simp [List.flatMap_cons, ih, List.filterMap_cons, h]

theorem forEachCollect_eq_filterMap (f : Nat → α → List ValidationResult)
    (g : Nat × α → Option ValidationResult) (data : List α)
    (h : ∀ i a, f i a = (g (i, a)).toList) :
    forEachCollect f data = (enumFrom 0 data).filterMap g := by
  rw [forEachCollect_eq_flatMap, ← flatMap_toList_eq_filterMap]
  congr 1
  funext p
  exact h p.1 p.2

theorem mem_enumFrom {p : Nat × α} :
    ∀ {n : Nat} {l : List α}, p ∈ enumFrom n l →
      n ≤ p.1 ∧ p.1 < n + l.length ∧ l.get? (p.1 - n) = some p.2 := by
  intro n l
  induction l generalizing n with
  | nil => intro h; simp [enumFrom] at h
  | cons a as ih =>
    intro h
    simp only [enumFrom, List.mem_cons] at h
    rcases h with h | h
    · subst h
      simp
    · obtain ⟨h1, h2, h3⟩ := ih h
      refine ⟨by omega, by simp; omega, ?_⟩
      have hd : p.1 - n = (p.1 - (n + 1)) + 1 := by omega
      rw [hd]
      simpa using h3

theorem mem_forEachCollect {r : ValidationResult}
    {f : Nat → α → List ValidationResult} {data : List α}
    (h : r ∈ forEachCollect f data) :
    ∃ i a, i < data.length ∧ r ∈ f i a := by
  rw [forEachCollect_eq_flatMap] at h
  rcases List.mem_flatMap.mp h with ⟨p, hp, hr⟩
  obtain ⟨_, h2, _⟩ := mem_enumFrom hp
  exact ⟨p.1, p.2, by simpa using h2, hr⟩

theorem foldl_count_nat (q : β → Bool) (step : Nat → β → Nat)
    (hstep : ∀ acc x, step acc x = if q x then acc + 1 else acc) :
    ∀ (l : List β) (acc : Nat), l.foldl step acc = acc + l.countP q := by
  intro l
  induction l with
  | nil => intro acc; simp
  | cons x xs ih =>
    intro acc
    rw [List.foldl_cons, hstep]
    by_cases h : q x <;> simp [h, ih, List.countP_cons] <;> omega

theorem foldl_count_int (q : β → Bool) (step : Int → β → Int)
    (hstep : ∀ acc x, step acc x = if q x then acc + 1 else acc) :
    ∀ (l : List β) (acc : Int),
      l.foldl step acc = acc + (l.countP q : Int) := by
  intro l
  induction l with
  | nil => intro acc; simp
  | cons x xs ih =>
    intro acc
    rw [List.foldl_cons, hstep]
    by_cases h : q x <;> simp [h, ih, List.countP_cons] <;> omega

theorem foldl_sum_filter (q : β → Bool) (g : β → Int) (step : Int → β → Int)
    (hstep : ∀ acc x, step acc x = if q x then acc + g x else acc) :
    ∀ (l : List β) (acc : Int),
      l.foldl step acc = acc + ((l.filter q).map g).sum := by
  intro l
  induction l with
  | nil => intro acc; simp
  | cons x xs ih =>
    intro acc
    rw [List.foldl_cons, hstep]
    by_cases h : q x <;>
      simp [h, ih, List.filter_cons] <;> omega

/-! ## Lemmas about the sort/dedup helpers and range expansion -/

theorem mem_insertLe (le : α → α → Bool) (a x : α) :
    ∀ l : List α, (x ∈ insertLe le a l ↔ x = a ∨ x ∈ l) := by
  intro l
  induction l with
  | nil => simp [insertLe]
  | cons b bs ih =>
    simp only [insertLe]
    by_cases h : le a b = true
    · rw [if_pos h]; simp
    · rw [if_neg h]
      simp only [List.mem_cons, ih]
      tauto

theorem mem_sortLe (le : α → α → Bool) (x : α) :
    ∀ l : List α, (x ∈ sortLe le l ↔ x ∈ l) := by
  intro l
  induction l with
  | nil => simp [sortLe]
  | cons b bs ih =>
    simp [sortLe, mem_insertLe, ih]

theorem mem_dedupFirstAux [DecidableEq α] (x : α) :
    ∀ (l seen : List α), (x ∈ dedupFirstAux l seen ↔ x ∈ l ∧ x ∉ seen) := by
  intro l
  induction l with
  | nil => intro seen; simp [dedupFirstAux]
  | cons a as ih =>
    intro seen
    by_cases h : a ∈ seen
    · simp only [dedupFirstAux, if_pos h, ih, List.mem_cons]
      constructor
      · rintro ⟨hx, hs⟩; exact ⟨Or.inr hx, hs⟩
      · rintro ⟨hx | hx, hs⟩
        · subst hx; exact absurd h hs
        · exact ⟨hx, hs⟩
    · simp only [dedupFirstAux, if_neg h, List.mem_cons, ih]
      constructor
      · rintro (hx | ⟨hx, hs⟩)
        · subst hx; exact ⟨Or.inl rfl, h⟩
        · simp at hs
          exact ⟨Or.inr hx, hs.2⟩
      · rintro ⟨hx | hx, hs⟩
        · subst hx; exact Or.inl rfl
        · by_cases hxa : x = a
          · subst hxa; exact Or.inl rfl
          · exact Or.inr ⟨hx, by simp [hxa, hs]⟩

theorem mem_dedupFirst [DecidableEq α] (x : α) (l : List α) :
    x ∈ dedupFirst l ↔ x ∈ l := by
  simp [dedupFirst, mem_dedupFirstAux]

theorem nodup_dedupFirstAux [DecidableEq α] :
    ∀ (l seen : List α), (dedupFirstAux l seen).Nodup := by
  intro l
  induction l with
  | nil => intro seen; simp [dedupFirstAux]
  | cons a as ih =>
    intro seen
    by_cases h : a ∈ seen
    · simpa [dedupFirstAux, h] using ih seen
    · simp only [dedupFirstAux, if_neg h, List.nodup_cons]
      refine ⟨fun hmem => ?_, ih (a :: seen)⟩
      have := (mem_dedupFirstAux a as (a :: seen)).mp hmem
      simp at this
  
theorem nodup_dedupFirst [DecidableEq α] (l : List α) :
    (dedupFirst l).Nodup := nodup_dedupFirstAux l []

theorem pairwise_insertLe_int (a : Int) :
    ∀ l : List Int, l.Pairwise (· < ·) → a ∉ l →
      (insertLe intLe a l).Pairwise (· < ·) := by
  intro l
  induction l with
  | nil => intro _ _; simp [insertLe]
  | cons b bs ih =>
    intro hp hna
    have hpbs : bs.Pairwise (· < ·) := hp.of_cons
    have hnab : a ≠ b := fun h => hna (h ▸ List.mem_cons_self b bs)
    simp only [insertLe]
    by_cases h : intLe a b = true
    · rw [if_pos h]
      have hab : a < b := by
        simp only [intLe, decide_eq_true_eq] at h
        omega
      refine List.Pairwise.cons (fun y hy => ?_) hp
      rcases List.mem_cons.mp hy with rfl | hy
      · exact hab
      · exact lt_trans hab (List.rel_of_pairwise_cons hp hy)
    · rw [if_neg h]
      have hba : b < a := by
        simp only [intLe, decide_eq_true_eq] at h
        omega
      refine List.Pairwise.cons (fun y hy => ?_)
        (ih hpbs fun hmem => hna (List.mem_cons_of_mem b hmem))
      rcases (mem_insertLe intLe a y bs).mp hy with rfl | hy
      · exact hba
      · exact List.rel_of_pairwise_cons hp hy

theorem pairwise_sortLe_int :
    ∀ l : List Int, l.Nodup → (sortLe intLe l).Pairwise (· < ·) := by
  intro l
  induction l with
  | nil => intro _; simp [sortLe]
  | cons a as ih =>
    intro hn
    rcases List.nodup_cons.mp hn with ⟨hna, hnas⟩
    refine pairwise_insertLe_int a (sortLe intLe as) (ih hnas) ?_
    intro hmem
    exact hna ((mem_sortLe intLe a as).mp hmem)

theorem mem_rangeListAux {m : Int} :
    ∀ (n : Nat) (s : Int), m ∈ rangeListAux s n ↔ s ≤ m ∧ m < s + n := by
  intro n
  induction n with
  | zero => intro s; simp [rangeListAux]
  | succ k ih =>
    intro s
    simp only [rangeListAux, List.mem_cons, ih (s + 1)]
    omega

theorem mem_rangeList {s e m : Int} (h : s ≤ e) :
    m ∈ rangeList s e ↔ s ≤ m ∧ m ≤ e := by
  unfold rangeList
  rw [mem_rangeListAux]
  omega

/-! ## The normalizer never fails outside numeric mode -/

theorem nonNumeric_no_error (value : Option String) (ar : Bool) :
    (validateAndNormalizeList value { allowRanges := ar, numeric := false }).error
      = none := by
  unfold validateAndNormalizeList
  cases value with
  | none => rfl
  | some v =>
    by_cases h : v = "" <;> simp [h]

/-! ## Characterizations of the counting folds -/

theorem phaseDemand_eq_countP (tasksData : List Row) (p : Int) :
    phaseDemand tasksData p = (tasksData.countP (demandCounts p) : Int) := by
  unfold phaseDemand
  refine (foldl_count_int (demandCounts p) _ ?_ tasksData 0).trans (by simp)
  intro acc task
  unfold demandCounts
  cases hjs : jsNumberOS (rowGet task "Duration") with
  | none => simp
  | some d =>
    by_cases h1 : d > 0
    · by_cases h2 : truthyOS (rowGet task "PreferredPhases") = true
      · by_cases h3 : (taskPhaseNums task).contains (some p) = true
        · simp [h1, h2, h3]
        · simp [h1, h2, h3]
      · simp [h1, h2]
    · simp [h1]

theorem phaseCapacity_eq_sum (workersData : List Row) (p : Int) :
    phaseCapacity workersData p =
      ((workersData.filter (capacityCounts p)).map fun worker =>
        (jsNumberOS (rowGet worker "MaxLoadPerPhase")).getD 0).sum := by
  unfold phaseCapacity
  refine (foldl_sum_filter (capacityCounts p)
    (fun worker => (jsNumberOS (rowGet worker "MaxLoadPerPhase")).getD 0)
    _ ?_ workersData 0).trans (by simp)
  intro acc worker
  unfold capacityCounts
  cases hjs : jsNumberOS (rowGet worker "MaxLoadPerPhase") with
  | none => simp [hjs]
  | some m =>
    by_cases h1 : truthyOS (rowGet worker "AvailableSlots") = true
    · by_cases h2 : (workerSlotNums worker).contains (some p) = true
      · simp [hjs, h1, h2]
      · simp [hjs, h1, h2]
    · simp [hjs, h1]

theorem qualifiedWorkerCount_eq_countP (workersData : List Row)
    (requiredSkills : List String) :
    qualifiedWorkerCount workersData requiredSkills =
      workersData.countP (qualifiedCounts requiredSkills) := by
  unfold qualifiedWorkerCount
  refine (foldl_count_nat (qualifiedCounts requiredSkills) _ ?_
    workersData 0).trans (by simp)
  intro acc worker
  unfold qualifiedCounts
  by_cases h1 : truthyOS (rowGet worker "Skills") = true
  · by_cases h2 : (requiredSkills.all fun reqSkill =>
        (workerSkillsOf worker).contains reqSkill) = true
    · simp [h1, h2]
    · simp [h1, h2]
  · simp [h1]

/-! ## The duplicate-identifier check, characterized by counting -/

theorem dupIdsPass_invariant (idHeader : String) :
    ∀ (data : List Row) (seen dups : List String) (s : String),
      (s ∈ (data.foldl
        (fun st row =>
          match rowGet row idHeader with
          | none => st
          | some id =>
            if id = "" then st
            else if id ∈ st.1 then
              (st.1, if id ∈ st.2 then st.2 else st.2 ++ [id])
            else (st.1 ++ [id], st.2))
        (seen, dups)).1 ↔
        s ∈ seen ∨ (s ≠ "" ∧
          1 ≤ data.countP fun r => rowGet r idHeader = some s)) ∧
      (s ∈ (data.foldl
        (fun st row =>
          match rowGet row idHeader with
          | none => st
          | some id =>
            if id = "" then st
            else if id ∈ st.1 then
              (st.1, if id ∈ st.2 then st.2 else st.2 ++ [id])
            else (st.1 ++ [id], st.2))
        (seen, dups)).2 ↔
        s ∈ dups ∨ (s ≠ "" ∧
          ((s ∈ seen ∧ 1 ≤ data.countP fun r => rowGet r idHeader = some s) ∨
            2 ≤ data.countP fun r => rowGet r idHeader = some s))) := by
  intro data
  induction data with
  | nil =>
    intro seen dups s
    simp
  | cons row rest ih =>
    intro seen dups s
    rw [List.foldl_cons]
    cases hr : rowGet row idHeader with
    | none =>
      have hcnt : ((row :: rest).countP fun r => rowGet r idHeader = some s) =
          rest.countP fun r => rowGet r idHeader = some s := by
        simp [List.countP_cons, hr]
      simp only [hr, hcnt]
      exact ih seen dups s
    | some id =>
      by_cases hid : id = ""
      · simp only [hr, if_pos hid]
        by_cases hs : s = ""
        · constructor
          · rw [(ih seen dups s).1]
            simp [hs]
          · rw [(ih seen dups s).2]
            simp [hs]
        · have hcnt : ((row :: rest).countP fun r => rowGet r idHeader = some s) =
              rest.countP fun r => rowGet r idHeader = some s := by
            have : id ≠ s := fun he => hs (he ▸ hid)
            simp [List.countP_cons, hr, this]
          rw [hcnt]
          exact ih seen dups s
      · by_cases hseen : id ∈ seen
        · have h := ih seen (if id ∈ dups then dups else dups ++ [id]) s
          simp only [hr, if_neg hid, if_pos hseen]
          have hdups' : s ∈ (if id ∈ dups then dups else dups ++ [id]) ↔
              s ∈ dups ∨ s = id := by
            by_cases hd : id ∈ dups
            · simp only [if_pos hd]
              constructor
              · exact fun hm => Or.inl hm
              · rintro (hm | rfl)
                · exact hm
                · exact hd
            · simp [if_neg hd, List.mem_append]
          by_cases hs : s = id
          · have hc1 : ((row :: rest).countP fun r => rowGet r idHeader = some s) =
                (rest.countP fun r => rowGet r idHeader = some s) + 1 := by
              simp [List.countP_cons, hr, hs]
            constructor
            · rw [h.1, hc1]
              exact iff_of_true (Or.inl (hs ▸ hseen)) (Or.inl (hs ▸ hseen))
            · rw [h.2, hdups', hc1]
              refine iff_of_true (Or.inl (Or.inr hs)) ?_
              refine Or.inr ⟨hs ▸ hid, Or.inl ⟨hs ▸ hseen, by omega⟩⟩
          · have hc0 : ((row :: rest).countP fun r => rowGet r idHeader = some s) =
                rest.countP fun r => rowGet r idHeader = some s := by
              have : id ≠ s := fun he => hs he.symm
              simp [List.countP_cons, hr, this]
            constructor
            · rw [h.1, hc0]
            · rw [h.2, hdups', hc0]
              simp [hs]
        · have h := ih (seen ++ [id]) dups s
          simp only [hr, if_neg hid, if_neg hseen]
          have hseen' : s ∈ seen ++ [id] ↔ s ∈ seen ∨ s = id := by
            simp [List.mem_append]
          by_cases hs : s = id
          · have hc1 : ((row :: rest).countP fun r => rowGet r idHeader = some s) =
                (rest.countP fun r => rowGet r idHeader = some s) + 1 := by
              simp [List.countP_cons, hr, hs]
            constructor
            · rw [h.1, hseen', hc1]
              constructor
              · rintro ((hm | _) | ⟨_, hc⟩)
                · exact Or.inl hm
                · exact Or.inr ⟨hs ▸ hid, by omega⟩
                · exact Or.inr ⟨hs ▸ hid, by omega⟩
              · rintro (hm | _)
                · exact Or.inl (Or.inl hm)
                · exact Or.inl (Or.inr hs)
            · rw [h.2, hseen', hc1]
              constructor
              · rintro (hm | ⟨hne, h2⟩)
                · exact Or.inl hm
                · rcases h2 with ⟨hm2 | _, hc⟩ | hc
                  · exact absurd (hs ▸ hm2) hseen
                  · exact Or.inr ⟨hne, Or.inr (by omega)⟩
                  · exact Or.inr ⟨hne, Or.inr (by omega)⟩
              · rintro (hm | ⟨hne, h2⟩)
                · exact Or.inl hm
                · rcases h2 with ⟨hm2, _⟩ | hc
                  · exact absurd (hs ▸ hm2) hseen
                  · exact Or.inr ⟨hne, Or.inl ⟨Or.inr hs, by omega⟩⟩
          · have hc0 : ((row :: rest).countP fun r => rowGet r idHeader = some s) =
                rest.countP fun r => rowGet r idHeader = some s := by
              have : id ≠ s := fun he => hs he.symm
              simp [List.countP_cons, hr, this]
            constructor
            · rw [h.1, hseen', hc0]
              simp [hs]
            · rw [h.2, hseen', hc0]
              constructor
              · rintro (hm | ⟨hne, h2⟩)
                · exact Or.inl hm
                · rcases h2 with ⟨hm2 | he, hc⟩ | hc
                  · exact Or.inr ⟨hne, Or.inl ⟨hm2, hc⟩⟩
                  · exact absurd he hs
                  · exact Or.inr ⟨hne, Or.inr hc⟩
              · rintro (hm | ⟨hne, h2⟩)
                · exact Or.inl hm
                · rcases h2 with ⟨hm2, hc⟩ | hc
                  · exact Or.inr ⟨hne, Or.inl ⟨Or.inl hm2, hc⟩⟩
                  · exact Or.inr ⟨hne, Or.inr hc⟩

theorem mem_dupIdsPass_snd (data : List Row) (idHeader : String) (s : String) :
    s ∈ (dupIdsPass data idHeader).2 ↔
      s ≠ "" ∧ 2 ≤ data.countP fun r => rowGet r idHeader = some s := by
  unfold dupIdsPass
  rw [(dupIdsPass_invariant idHeader data [] [] s).2]
  simp

theorem validateDuplicateIds_spec (data : List Row) (idHeader : String) :
    validateDuplicateIds data idHeader =
      (enumFrom 0 data).filterMap fun p =>
        match rowGet p.2 idHeader with
        | none => none
        | some id =>
          if id ≠ "" ∧ 2 ≤ data.countP fun r => rowGet r idHeader = some id then
            some { rowIndex := (p.1 : Int), header := idHeader,
                   message := "Duplicate ID found: " ++ id }
          else none := by
  unfold validateDuplicateIds
  refine forEachCollect_eq_filterMap _ _ data ?_
  intro i row
  cases hid : rowGet row idHeader with
  | none => simp [hid]
  | some id =>
    by_cases hdup : id ∈ (dupIdsPass data idHeader).2
    · have hc := (mem_dupIdsPass_snd data idHeader id).mp hdup
      simp [hid, hdup, hc]
    · have hc := fun hp => hdup ((mem_dupIdsPass_snd data idHeader id).mpr hp)
      simp only [hid, if_neg hdup]
      rw [if_neg hc]
      rfl

/-! ## Shape of each validator's results (headers and row indices) -/

theorem mem_ite_list {c : Prop} [Decidable c] {l l' : List α} {r : α}
    (hr : r ∈ if c then l else l') : (c ∧ r ∈ l) ∨ (¬ c ∧ r ∈ l') := by
  by_cases h : c
  · rw [if_pos h] at hr; exact Or.inl ⟨h, hr⟩
  · rw [if_neg h] at hr; exact Or.inr ⟨h, hr⟩

theorem validateRequiredColumns_shape (headers requiredHeaders : List String) :
    ∀ r ∈ validateRequiredColumns headers requiredHeaders,
      r.rowIndex = -1 ∧ r.header ∈ requiredHeaders ∧
        r.message = "Missing required column: " ++ r.header := by
  intro r hr
  unfold validateRequiredColumns at hr
  obtain ⟨h, hh, rfl⟩ := List.mem_map.mp hr
  exact ⟨rfl, (List.mem_filter.mp hh).1, rfl⟩

theorem validateDuplicateIds_shape (data : List Row) (idHeader : String) :
    ∀ r ∈ validateDuplicateIds data idHeader,
      r.header = idHeader ∧ ∃ i : Nat, i < data.length ∧ r.rowIndex = (i : Int) := by
  intro r hr
  unfold validateDuplicateIds at hr
  obtain ⟨i, a, hi, hra⟩ := mem_forEachCollect hr
  cases h : rowGet a idHeader with
  | none => rw [h] at hra; simp at hra
  | some id =>
    rw [h] at hra
    rcases mem_ite_list hra with ⟨_, hm⟩ | ⟨_, hm⟩
    · rcases List.mem_singleton.mp hm with rfl
      exact ⟨rfl, i, hi, rfl⟩
    · simp at hm

theorem validateOutOfRange_shape (data : List Row) (header : String)
    (min max : JsBound) :
    ∀ r ∈ validateOutOfRange data header min max,
      r.header = header ∧ ∃ i : Nat, i < data.length ∧ r.rowIndex = (i : Int) := by
  intro r hr
  unfold validateOutOfRange at hr
  obtain ⟨i, a, hi, hra⟩ := mem_forEachCollect hr
  rcases mem_ite_list hra with ⟨_, hm⟩ | ⟨_, hm⟩
  · cases h : jsNumberOS (rowGet a header) with
    | none => rw [h] at hm; simp at hm
    | some v =>
      rw [h] at hm
      rcases mem_ite_list hm with ⟨_, hm2⟩ | ⟨_, hm2⟩
      · rcases List.mem_singleton.mp hm2 with rfl
        exact ⟨rfl, i, hi, rfl⟩
      · simp at hm2
  · simp at hm

theorem validateBrokenJson_empty (data : List Row) (header : String) :
    validateBrokenJson data header = [] := by
  unfold validateBrokenJson
  rw [forEachCollect_eq_flatMap]
  induction enumFrom 0 data with
  | nil => rfl
  | cons p ps ih => simpa using ih

theorem validateUnknownReferences_shape (clientsData tasksData : List Row) :
    ∀ r ∈ validateUnknownReferences clientsData tasksData,
      r.header = "Requested TaskIDs" ∧
        ∃ i : Nat, i < clientsData.length ∧ r.rowIndex = (i : Int) := by
  intro r hr
  unfold validateUnknownReferences at hr
  obtain ⟨i, a, hi, hra⟩ := mem_forEachCollect hr
  dsimp only at hra
  rcases mem_ite_list hra with ⟨_, hm⟩ | ⟨_, hm⟩
  · cases herr : (validateAndNormalizeList (rowGet a "Requested TaskIDs")
        { numeric := false, allowRanges := false }).error with
    | some e =>
      rw [herr] at hm
      rcases List.mem_singleton.mp hm with rfl
      exact ⟨rfl, i, hi, rfl⟩
    | none =>
      rw [herr] at hm
      obtain ⟨x, _, hx⟩ := List.mem_filterMap.mp hm
      by_cases hc : (List.map (fun task => rowGet task "TaskID")
          tasksData).contains (some x) = true
      · rw [if_pos hc] at hx; exact absurd hx (by simp)
      · rw [if_neg hc] at hx
        cases hx
        exact ⟨rfl, i, hi, rfl⟩
  · simp at hm

theorem validateOverloadedWorkers_shape (workersData : List Row) :
    ∀ r ∈ validateOverloadedWorkers workersData,
      (r.header = "AvailableSlots" ∨ r.header = "MaxLoadPerPhase") ∧
        ∃ i : Nat, i < workersData.length ∧ r.rowIndex = (i : Int) := by
  intro r hr
  unfold validateOverloadedWorkers at hr
  obtain ⟨i, a, hi, hra⟩ := mem_forEachCollect hr
  dsimp only at hra
  cases h : jsNumberOS (rowGet a "MaxLoadPerPhase") with
  | none => rw [h] at hra; simp at hra
  | some m =>
    rw [h] at hra
    rcases mem_ite_list hra with ⟨_, hm⟩ | ⟨_, hm⟩
    · cases herr : (validateAndNormalizeList (rowGet a "AvailableSlots")
          { numeric := true, allowRanges := false }).error with
      | some e =>
        rw [herr] at hm
        rcases List.mem_singleton.mp hm with rfl
        exact ⟨Or.inl rfl, i, hi, rfl⟩
      | none =>
        rw [herr] at hm
        rcases mem_ite_list hm with ⟨_, hm2⟩ | ⟨_, hm2⟩
        · rcases List.mem_singleton.mp hm2 with rfl
          exact ⟨Or.inr rfl, i, hi, rfl⟩
        · simp at hm2
    · simp at hm

theorem validateSkillCoverageMatrix_shape (tasksData workersData : List Row) :
    ∀ r ∈ validateSkillCoverageMatrix tasksData workersData,
      r.header = "RequiredSkills" ∧
        ∃ i : Nat, i < tasksData.length ∧ r.rowIndex = (i : Int) := by
  intro r hr
  unfold validateSkillCoverageMatrix at hr
  obtain ⟨i, a, hi, hra⟩ := mem_forEachCollect hr
  dsimp only at hra
  rcases mem_ite_list hra with ⟨_, hm⟩ | ⟨_, hm⟩
  · cases herr : (validateAndNormalizeList (rowGet a "RequiredSkills")
        { numeric := false, allowRanges := false }).error with
    | some e =>
      rw [herr] at hm
      rcases List.mem_singleton.mp hm with rfl
      exact ⟨rfl, i, hi, rfl⟩
    | none =>
      rw [herr] at hm
      obtain ⟨x, _, hx⟩ := List.mem_filterMap.mp hm
      by_cases hc : (workerSkillsUnion workersData).contains x = true
      · rw [if_pos hc] at hx; exact absurd hx (by simp)
      · rw [if_neg hc] at hx
        cases hx
        exact ⟨rfl, i, hi, rfl⟩
  · simp at hm

theorem validateMaxConcurrencyFeasibility_shape (tasksData workersData : List Row) :
    ∀ r ∈ validateMaxConcurrencyFeasibility tasksData workersData,
      r.header = "MaxConcurrent" ∧
        ∃ i : Nat, i < tasksData.length ∧ r.rowIndex = (i : Int) := by
  intro r hr
  unfold validateMaxConcurrencyFeasibility at hr
  obtain ⟨i, a, hi, hra⟩ := mem_forEachCollect hr
  cases h : jsNumberOS (rowGet a "MaxConcurrent") with
  | none => rw [h] at hra; simp at hra
  | some m =>
    rw [h] at hra
    rcases mem_ite_list hra with ⟨_, hm⟩ | ⟨_, hm⟩
    · simp at hm
    · rcases mem_ite_list hm with ⟨_, hm2⟩ | ⟨_, hm2⟩
      · rcases List.mem_singleton.mp hm2 with rfl
        exact ⟨rfl, i, hi, rfl⟩
      · simp at hm2

theorem validatePhaseSlotSaturation_shape (tasksData workersData : List Row) :
    ∀ r ∈ validatePhaseSlotSaturation tasksData workersData,
      r.rowIndex = -1 ∧ ∃ p : Int, r.header = "Phase " ++ intRepr p := by
  intro r hr
  unfold validatePhaseSlotSaturation at hr
  obtain ⟨p, _, hp⟩ := List.mem_filterMap.mp hr
  by_cases hc : phaseDemand tasksData p > phaseCapacity workersData p
  · rw [if_pos hc] at hp
    cases hp
    exact ⟨rfl, p, rfl⟩
  · rw [if_neg hc] at hp
    exact absurd hp (by simp)

theorem phase_header_ne (s : String) : "Phase " ++ s ≠ "PreferredPhases" := by
  intro h
  have hd := congrArg String.data h
  rw [String.data_append] at hd
  have h1 : ("Phase ").data = ['P', 'h', 'a', 's', 'e', ' '] := rfl
  have h2 : ("PreferredPhases").data =
      ['P', 'r', 'e', 'f', 'e', 'r', 'r', 'e', 'd',
       'P', 'h', 'a', 's', 'e', 's'] := rfl
  rw [h1, h2] at hd
  simp at hd

/-! ## The claims -/

/-- Claim C1, counterexample: the claim says each task whose normalized
preferred-phases list includes phase p contributes one unit of demand
"regardless of its Duration value".  With two tasks preferring phase 1,
one of them with `Duration = "0"`, and capacity 1 for phase 1, the
claim's demand is 2 > 1 and an error would have to be emitted; the code
requires a positive numeric Duration, computes demand 1, and emits
nothing. -/
theorem c1_phase_demand_counterexample :
    validatePhaseSlotSaturation tasksDurZero workersOneSlot = [] ∧
    phaseDemandClaim tasksDurZero 1 = 2 ∧
    phaseCapacity workersOneSlot 1 = 1 ∧
    phaseDemand tasksDurZero 1 = 1 :=
  ⟨rfl, rfl, rfl, rfl⟩

/-- Claim C1, amended: for every phase p in 1..maxPhase, the demand for
p equals the count of tasks with positive numeric Duration and a
non-empty PreferredPhases cell whose normalized preferred-phases list
(ranges expanded) includes p — each counted task contributing exactly 1
unit however large its Duration — and a table-wide error for p is
emitted exactly when this demand exceeds the capacity for p (the sum of
MaxLoadPerPhase over workers whose normalized slots include p). -/
theorem c1_phase_saturation_amended (tasksData workersData : List Row) :
    validatePhaseSlotSaturation tasksData workersData =
      (phaseRange (maxPhaseOf tasksData workersData)).filterMap fun p =>
        if ((tasksData.countP (demandCounts p) : Int)) >
            (((workersData.filter (capacityCounts p)).map fun worker =>
              (jsNumberOS (rowGet worker "MaxLoadPerPhase")).getD 0).sum) then
          some { rowIndex := -1, header := "Phase " ++ intRepr p,
                 message := "Phase " ++ intRepr p ++ " is saturated: Demand (" ++
                   intRepr (tasksData.countP (demandCounts p) : Int) ++
                   ") exceeds Capacity (" ++
                   intRepr (((workersData.filter (capacityCounts p)).map
                     fun worker =>
                       (jsNumberOS (rowGet worker "MaxLoadPerPhase")).getD 0).sum)
                   ++ ")" }
        else none := by
  unfold validatePhaseSlotSaturation
  congr 1
  funext p
  rw [phaseDemand_eq_countP, phaseCapacity_eq_sum]

/-- Claim C2, code bug: the current `validateBrokenJson` never emits
anything — its catch block is empty (and followed by a stray brace), so
every dataset yields the empty list — while the claim, the spec, and
the earlier version of the same function demand an "Invalid JSON
format" error for each row whose non-empty string cell fails to parse
as JSON (e.g. a lone opening brace). -/
theorem c2_broken_json_bug_eval :
    (∀ (data : List Row) (header : String),
      validateBrokenJson data header = []) ∧
    (∀ jsonParses : String → Bool, jsonParses "\x7b" = false →
      validateBrokenJsonV0 jsonParses
          [[("AttributesJSON", JsValue.vStr "\x7b")]] "AttributesJSON" =
        [{ rowIndex := 0, header := "AttributesJSON",
           message := "Invalid JSON format" }]) := by
  refine ⟨validateBrokenJson_empty, ?_⟩
  intro jsonParses hp
  unfold validateBrokenJsonV0 forEachCollect
  simp [jrowGet, hp, enumFrom]

/-- Witness for claim C2's theorem: the evaluation at a parse predicate
rejecting the lone opening brace. -/
theorem c2_broken_json_bug_eval_witness :
    validateBrokenJsonV0 (fun _ => false)
        [[("AttributesJSON", JsValue.vStr "\x7b")]] "AttributesJSON" =
      [{ rowIndex := 0, header := "AttributesJSON",
         message := "Invalid JSON format" }] :=
  c2_broken_json_bug_eval.2 (fun _ => false) rfl

/-- Claim C4, code bug: the normalizer is not idempotent, contradicting
the spec's stated invariant.  The value `"b], [a"` normalizes (string
mode) to `"[a, b]"`, but normalizing that output strips the brackets it
happens to be wrapped in and yields `"a, b"`, a different string. -/
theorem c4_idempotence_bug_eval :
    (validateAndNormalizeList (some "b], [a")
      { allowRanges := false, numeric := false }).normalized = some "[a, b]" ∧
    (validateAndNormalizeList (some "[a, b]")
      { allowRanges := false, numeric := false }).normalized = some "a, b" ∧
    ("a, b" : String) ≠ "[a, b]" :=
  ⟨rfl, rfl, by decide⟩

/-- Claim C7: with ranges allowed on a numeric list, a well-formed
hyphenated token `s-e` (two numeric parts, s ≤ e) expands to every
integer in [s, e] inclusive; the collected values are deduplicated,
sorted ascending and joined with ", " ("1-3, 5" normalizes to
"1, 2, 3, 5"), and a token with start > end yields an error naming
the failure. -/
theorem c7_range_expansion :
    validateAndNormalizeList (some "1-3, 5")
        { allowRanges := true, numeric := true } =
      { error := none, normalized := some "1, 2, 3, 5" } ∧
    validateAndNormalizeList (some "5-2")
        { allowRanges := true, numeric := true } =
      { error := some "Invalid range, start > end: \"5-2\"",
        normalized := none } ∧
    (∀ s e m : Int, s ≤ e → (m ∈ rangeList s e ↔ s ≤ m ∧ m ≤ e)) ∧
    (∀ parts : List Int,
      (sortLe intLe (dedupFirst parts)).Pairwise (· < ·) ∧
        ∀ m : Int, m ∈ sortLe intLe (dedupFirst parts) ↔ m ∈ parts) := by
  refine ⟨rfl, rfl, fun s e m h => mem_rangeList h, fun parts => ⟨?_, ?_⟩⟩
  · exact pairwise_sortLe_int (dedupFirst parts) (nodup_dedupFirst parts)
  · intro m
    rw [mem_sortLe, mem_dedupFirst]

/-- Witness for claim C7's theorem: the range-membership
characterization applied at the concrete range 1-3. -/
theorem c7_range_expansion_witness :
    ((2 : Int) ∈ rangeList 1 3 ↔ (1 : Int) ≤ 2 ∧ (2 : Int) ≤ 3) :=
  c7_range_expansion.2.2.1 1 3 2 (by decide)

/-- Claim C8: the duplicate-identifier check emits exactly one error
per row whose non-empty identifier occurs more than once in the
dataset, in row order, and nothing for rows with unique or empty
identifiers; on rows [C1, C2, C1] it returns exactly two errors, for
rows 0 and 2. -/
theorem c8_duplicate_ids :
    (∀ (data : List Row) (idHeader : String),
      validateDuplicateIds data idHeader =
        (enumFrom 0 data).filterMap fun p =>
          match rowGet p.2 idHeader with
          | none => none
          | some id =>
            if id ≠ "" ∧
                2 ≤ data.countP fun r => rowGet r idHeader = some id then
              some { rowIndex := (p.1 : Int), header := idHeader,
                     message := "Duplicate ID found: " ++ id }
            else none) ∧
    validateDuplicateIds [[("ClientID", "C1")], [("ClientID", "C2")],
        [("ClientID", "C1")]] "ClientID" =
      [{ rowIndex := 0, header := "ClientID",
         message := "Duplicate ID found: C1" },
       { rowIndex := 2, header := "ClientID",
         message := "Duplicate ID found: C1" }] :=
  ⟨validateDuplicateIds_spec, by decide⟩

/-- Claim C6, counterexample: the claim counts "workers whose
normalized skill set is a superset of the task's normalized
required-skills set".  For a task without a RequiredSkills cell every
worker qualifies vacuously (count 1 here, so `MaxConcurrent = 1` is
feasible and no error is due), yet the code fixes the count at 0
whenever RequiredSkills is falsy and emits an error. -/
theorem c6_max_concurrency_counterexample :
    validateMaxConcurrencyFeasibility tasksNoSkills workersSkillA =
      [{ rowIndex := 0, header := "MaxConcurrent",
         message :=
           "MaxConcurrent (1) is higher than available qualified workers (0)" }] ∧
    qualifiedCountClaim workersSkillA
      [("TaskID", "T1"), ("MaxConcurrent", "1")] = 1 ∧
    ¬ ((1 : Int) > (1 : Nat)) :=
  ⟨rfl, rfl, by decide⟩

/-- Claim C6, amended: for every task with positive numeric
MaxConcurrent, the check counts the workers with a non-empty Skills
cell whose normalized skill list contains every normalized required
skill of the task — and uses count 0 without looking at the workers
when the task's RequiredSkills cell is empty or absent — then emits an
error naming both numbers if and only if MaxConcurrent exceeds that
count; tasks with non-positive or non-numeric MaxConcurrent are
skipped. -/
theorem c6_max_concurrency_amended (tasksData workersData : List Row) :
    validateMaxConcurrencyFeasibility tasksData workersData =
      (enumFrom 0 tasksData).filterMap fun p =>
        match jsNumberOS (rowGet p.2 "MaxConcurrent") with
        | none => none
        | some maxConcurrent =>
          if maxConcurrent ≤ 0 then none
          else if maxConcurrent >
              ((if truthyOS (rowGet p.2 "RequiredSkills") then
                workersData.countP (qualifiedCounts (taskRequiredSkills p.2))
              else 0 : Nat) : Int) then
            some { rowIndex := (p.1 : Int), header := "MaxConcurrent",
                   message := "MaxConcurrent (" ++ intRepr maxConcurrent ++
                     ") is higher than available qualified workers (" ++
                     intRepr (((if truthyOS (rowGet p.2 "RequiredSkills") then
                       workersData.countP (qualifiedCounts (taskRequiredSkills p.2))
                     else 0 : Nat) : Int)) ++ ")" }
          else none := by
  unfold validateMaxConcurrencyFeasibility
  refine forEachCollect_eq_filterMap _ _ tasksData ?_
  intro i task
  dsimp only
  cases hm : jsNumberOS (rowGet task "MaxConcurrent") with
  | none => rfl
  | some m =>
    dsimp only
    have hq := qualifiedWorkerCount_eq_countP workersData (taskRequiredSkills task)
    by_cases h0 : m ≤ 0
    · simp [h0]
    · rw [if_neg h0, if_neg h0, hq]
      by_cases hgt : m > ((if truthyOS (rowGet task "RequiredSkills") then
          workersData.countP (qualifiedCounts (taskRequiredSkills task))
        else 0 : Nat) : Int)
      · simp only [if_pos hgt]
        rfl
      · simp only [if_neg hgt]
        rfl

/-- Claim C9: when a cross-entity check's required dataset is empty the
orchestrator contributes nothing from that check; in particular with an
empty workers dataset the tasks key carries only the four single-entity
checks — the skill-coverage, max-concurrency and phase-saturation
checks are skipped whatever the tasks content — and with an empty tasks
dataset the clients key carries only its single-entity checks, the
unknown-reference check being skipped whatever the clients content. -/
theorem c9_empty_dataset_gating :
    (∀ allData : AllData, allData.workers.data = [] →
      (runDeterministicValidations allData).tasks =
        validateRequiredColumns allData.tasks.headers taskHeaders ++
        validateDuplicateIds allData.tasks.data "TaskID" ++
        validateOutOfRange allData.tasks.data "Duration" (JsBound.fin 1)
          JsBound.posInf ++
        validateOutOfRange allData.tasks.data "MaxConcurrent" (JsBound.fin 1)
          JsBound.posInf) ∧
    (∀ allData : AllData, allData.tasks.data = [] →
      (runDeterministicValidations allData).clients =
        validateRequiredColumns allData.clients.headers clientHeaders ++
        validateDuplicateIds allData.clients.data "ClientID" ++
        validateOutOfRange allData.clients.data "PriorityLevel" (JsBound.fin 1)
          (JsBound.fin 5) ++
        validateBrokenJson allData.clients.data "AttributesJSON") := by
  constructor
  · intro allData hw
    unfold runDeterministicValidations
    dsimp only
    rw [hw]
    simp [taskHeaders]
  · intro allData ht
    unfold runDeterministicValidations
    dsimp only
    rw [ht]
    simp [clientHeaders]

/-- Witness for claim C9's theorem: an empty workers dataset next to a
task that would fail both skill coverage and concurrency feasibility
produces only the single-entity results. -/
theorem c9_empty_dataset_gating_witness :
    (runDeterministicValidations allDataNoWorkers).tasks =
      validateRequiredColumns allDataNoWorkers.tasks.headers taskHeaders ++
      validateDuplicateIds allDataNoWorkers.tasks.data "TaskID" ++
      validateOutOfRange allDataNoWorkers.tasks.data "Duration" (JsBound.fin 1)
        JsBound.posInf ++
      validateOutOfRange allDataNoWorkers.tasks.data "MaxConcurrent"
        (JsBound.fin 1) JsBound.posInf :=
  c9_empty_dataset_gating.1 allDataNoWorkers rfl

theorem rowIndex_ok {r : ValidationResult} {n : Nat}
    (h : ∃ i : Nat, i < n ∧ r.rowIndex = (i : Int)) :
    r.rowIndex = -1 ∨ 0 ≤ r.rowIndex ∧ r.rowIndex < (n : Int) := by
  obtain ⟨i, hi, hr⟩ := h
  right
  rw [hr]
  exact ⟨by omega, by omega⟩

/-- Claim C3, counterexample: with empty clients and workers, a task
whose schema-declared list column `PreferredPhases` holds the
malformed value "5-2" — which the normalizer rejects under the
schema's options — produces a run with no validation result at all:
the engine never runs the normalizer on that column as a single-entity
check. -/
theorem c3_list_check_counterexample :
    runDeterministicValidations allDataMalformedPhases =
      { clients := [], workers := [], tasks := [] } ∧
    (validateAndNormalizeList
      (rowGet [("TaskID", "T1"), ("Duration", "1"), ("RequiredSkills", "a"),
        ("PreferredPhases", "5-2"), ("MaxConcurrent", "1")] "PreferredPhases")
      phasesOptions).error =
      some "Invalid range, start > end: \"5-2\"" :=
  ⟨rfl, rfl⟩

/-- Claim C3, amended: the current engine has no single-entity
list-well-formedness check.  List-format errors surface only through
the gated cross-entity checks that re-normalize the other list columns,
and `PreferredPhases` normalization errors are never surfaced: every
tasks-key result tagged `PreferredPhases` is the table-wide
missing-column error (the earlier engine version ran the per-schema
list check as the claim states). -/
theorem c3_list_surfacing_amended :
    (∀ (allData : AllData) (r : ValidationResult),
        r ∈ (runDeterministicValidations allData).tasks →
        r.header = "PreferredPhases" →
        r.rowIndex = -1 ∧
          r.message = "Missing required column: PreferredPhases") ∧
    (validateAndNormalizeList (some "5-2") phasesOptions).error =
      some "Invalid range, start > end: \"5-2\"" := by
  constructor
  · intro allData r hr hh
    unfold runDeterministicValidations at hr
    dsimp only at hr
    rcases List.mem_append.mp hr with hr5 | hrF
    · rcases List.mem_append.mp hr5 with hr4 | hrE
      · rcases List.mem_append.mp hr4 with hr3 | hrD
        · rcases List.mem_append.mp hr3 with hr2 | hrC
          · rcases List.mem_append.mp hr2 with hrA | hrB
            · obtain ⟨h1, _, h3⟩ := validateRequiredColumns_shape _ _ r hrA
              refine ⟨h1, ?_⟩
              rw [h3, hh]
              decide
            · have h := (validateDuplicateIds_shape _ _ r hrB).1
              exact absurd (hh.symm.trans h) (by decide)
          · have h := (validateOutOfRange_shape _ _ _ _ r hrC).1
            exact absurd (hh.symm.trans h) (by decide)
        · have h := (validateOutOfRange_shape _ _ _ _ r hrD).1
          exact absurd (hh.symm.trans h) (by decide)
      · rcases mem_ite_list hrE with ⟨_, hm⟩ | ⟨_, hm⟩
        · rcases List.mem_append.mp hm with hm | hm
          · have h := (validateSkillCoverageMatrix_shape _ _ r hm).1
            exact absurd (hh.symm.trans h) (by decide)
          · have h := (validateMaxConcurrencyFeasibility_shape _ _ r hm).1
            exact absurd (hh.symm.trans h) (by decide)
        · simp at hm
    · rcases mem_ite_list hrF with ⟨_, hm⟩ | ⟨_, hm⟩
      · obtain ⟨_, p, hph⟩ := validatePhaseSlotSaturation_shape _ _ r hm
        exact absurd (hph.symm.trans hh) (phase_header_ne (intRepr p))
      · simp at hm
  · rfl

/-- Witness for claim C3's theorem: on datasets whose tasks header row
lacks PreferredPhases, the run emits the missing-column error for that
column, and the theorem pins its shape. -/
theorem c3_list_surfacing_witness :
    missingPhasesResult.rowIndex = -1 ∧
      missingPhasesResult.message =
        "Missing required column: PreferredPhases" :=
  c3_list_surfacing_amended.1 allDataNoPhaseHeader missingPhasesResult
    (by decide) rfl

/-- Claim C10: every result of the orchestrator carries rowIndex -1 or
a valid index into the dataset under whose entity key it appears. -/
theorem c10_row_index_invariant (allData : AllData) :
    (∀ r ∈ (runDeterministicValidations allData).clients,
      r.rowIndex = -1 ∨ 0 ≤ r.rowIndex ∧
        r.rowIndex < (allData.clients.data.length : Int)) ∧
    (∀ r ∈ (runDeterministicValidations allData).workers,
      r.rowIndex = -1 ∨ 0 ≤ r.rowIndex ∧
        r.rowIndex < (allData.workers.data.length : Int)) ∧
    (∀ r ∈ (runDeterministicValidations allData).tasks,
      r.rowIndex = -1 ∨ 0 ≤ r.rowIndex ∧
        r.rowIndex < (allData.tasks.data.length : Int)) := by
  refine ⟨?_, ?_, ?_⟩
  · intro r hr
    unfold runDeterministicValidations at hr
    dsimp only at hr
    rcases List.mem_append.mp hr with hr4 | hrE
    · rcases List.mem_append.mp hr4 with hr3 | hrD
      · rcases List.mem_append.mp hr3 with hr2 | hrC
        · rcases List.mem_append.mp hr2 with hrA | hrB
          · exact Or.inl (validateRequiredColumns_shape _ _ r hrA).1
          · exact rowIndex_ok (validateDuplicateIds_shape _ _ r hrB).2
        · exact rowIndex_ok (validateOutOfRange_shape _ _ _ _ r hrC).2
      · rw [validateBrokenJson_empty] at hrD
        simp at hrD
    · rcases mem_ite_list hrE with ⟨_, hm⟩ | ⟨_, hm⟩
      · exact rowIndex_ok (validateUnknownReferences_shape _ _ r hm).2
      · simp at hm
  · intro r hr
    unfold runDeterministicValidations at hr
    dsimp only at hr
    rcases List.mem_append.mp hr with hr2 | hrC
    · rcases List.mem_append.mp hr2 with hrA | hrB
      · exact Or.inl (validateRequiredColumns_shape _ _ r hrA).1
      · exact rowIndex_ok (validateDuplicateIds_shape _ _ r hrB).2
    · exact rowIndex_ok (validateOverloadedWorkers_shape _ r hrC).2
  · intro r hr
    unfold runDeterministicValidations at hr
    dsimp only at hr
    rcases List.mem_append.mp hr with hr5 | hrF
    · rcases List.mem_append.mp hr5 with hr4 | hrE
      · rcases List.mem_append.mp hr4 with hr3 | hrD
        · rcases List.mem_append.mp hr3 with hr2 | hrC
          · rcases List.mem_append.mp hr2 with hrA | hrB
            · exact Or.inl (validateRequiredColumns_shape _ _ r hrA).1
            · exact rowIndex_ok (validateDuplicateIds_shape _ _ r hrB).2
          · exact rowIndex_ok (validateOutOfRange_shape _ _ _ _ r hrC).2
        · exact rowIndex_ok (validateOutOfRange_shape _ _ _ _ r hrD).2
      · rcases mem_ite_list hrE with ⟨_, hm⟩ | ⟨_, hm⟩
        · rcases List.mem_append.mp hm with hm | hm
          · exact rowIndex_ok (validateSkillCoverageMatrix_shape _ _ r hm).2
          · exact rowIndex_ok
              (validateMaxConcurrencyFeasibility_shape _ _ r hm).2
        · simp at hm
    · rcases mem_ite_list hrF with ⟨_, hm⟩ | ⟨_, hm⟩
      · exact Or.inl (validatePhaseSlotSaturation_shape _ _ r hm).1
      · simp at hm

/-- Witness for claim C10's theorem: the invariant applied to the
first duplicate-identifier error of a concrete run. -/
theorem c10_row_index_invariant_witness :
    dupC1Result.rowIndex = -1 ∨
      0 ≤ dupC1Result.rowIndex ∧
        dupC1Result.rowIndex < (allDataDupClients.clients.data.length : Int) :=
  (c10_row_index_invariant allDataDupClients).1 dupC1Result (by decide)
